import Mathlib

/-!
Verification development for the `extend-library-adonis-lucid-db` repository
(a MongoDB-backed fork of adonis-lucid).  The definitions below are a shallow
embedding of the JavaScript sources:

* `src/src/Database/index.js` — connection pool (`Database.connection`,
  `Database.close`), query pagination (`Database.forPage`,
  `Database.paginate`, `Database.chunk`), the connection-URI construction,
  `Database.schema` and `SchemaBuilder`;
* `src/src/LucidMongo/Relations/EmbedsOne.js` — the `EmbedOne` relation
  (`eagerLoad`, `save`).

JavaScript values that the embedded code inspects (truthiness, property
access, `_.size`) are modelled by the inductive type `JsVal`; machine
integers are modelled by `Int` (no overflow is relevant here); asynchronous
code is modelled by explicit state passing, and the one genuinely
interleaving-sensitive operation (`Database.connection`'s pool-miss branch,
which suspends between its pool check and the pool write) is modelled by a
small event semantics (`PoolEv`, `poolStep`).  Fallible code returns
`Except DBError`.

The repository's `lib/util` module is required by `Database/index.js` but is
not among the provided sources; its three functions used here
(`validatePage`, `returnOffset`, `makePaginateMeta`) are modelled from the
spec and are marked as such in their doc comments.
-/

/-- Error kinds raised by the embedded code, mirroring `src/Exceptions`:
`InvalidArgumentException.missingConfig`, `InvalidArgumentException` (bad
page / bad index arguments), `ModelRelationException.relationMisMatch`,
`ModelRelationException.unSavedTarget`. -/
inductive DBError where
  | missingConfig
  | invalidArgument
  | relationMisMatch
  | unSavedTarget
deriving DecidableEq, Repr

/-- JavaScript runtime values, as far as the embedded code inspects them:
`undefined`, `null`, booleans, (integral) numbers, strings and plain
objects (ordered field lists). -/
inductive JsVal where
  | undefined
  | null
  | bool (b : Bool)
  | num (n : Int)
  | str (s : String)
  | obj (fields : List (String × JsVal))

/-- Association-list lookup (JS object property read by key, `m[k]`). -/
def getKey {α : Type} (m : List (String × α)) (k : String) : Option α :=
  match m with
  | [] => none
  | (k', v) :: rest => if k' = k then some v else getKey rest k

/-- Association-list write (JS object property assignment `m[k] = v`:
overwrites an existing key, otherwise appends). -/
def setKey {α : Type} (m : List (String × α)) (k : String) (v : α) :
    List (String × α) :=
  match m with
  | [] => [(k, v)]
  | (k', v') :: rest => if k' = k then (k, v) :: rest else (k', v') :: setKey rest k v

/-- Association-list delete (JS `delete m[k]`). -/
def removeKey {α : Type} (m : List (String × α)) (k : String) :
    List (String × α) :=
  m.filter (fun p => p.1 ≠ k)

/-- JavaScript truthiness test, negated (`!v`): `undefined`, `null`,
`false`, `0` and `""` are falsy. -/
def jsFalsy : JsVal → Bool
  | .undefined => true
  | .null => true
  | .bool b => !b
  | .num n => n = 0
  | .str s => s = ""
  | .obj _ => false

/-- JavaScript `v1 || v2` on values. -/
def jsOrVal (v d : JsVal) : JsVal := if jsFalsy v then d else v

/-- JavaScript property read `v.k` / `v[k]`: on an object the field (or
`undefined` when absent); on every other value modelled here `undefined`
(none of the properties the embedded code reads — `keys`, `options`, model
attributes — exist on JS primitives). -/
def JsVal.getField : JsVal → String → JsVal
  | .obj fs, k => (getKey fs k).getD .undefined
  | _, _ => .undefined

/-- JavaScript property write `v[k] = w`: updates an object; a write to a
primitive is silently discarded (non-strict mode). -/
def JsVal.setField : JsVal → String → JsVal → JsVal
  | .obj fs, k, w => .obj (setKey fs k w)
  | v, _, _ => v

/-- JavaScript `String(v)` coercion, used for JS object keys
(`_.keyBy` stores values under string keys). -/
def jsToString : JsVal → String
  | .undefined => "undefined"
  | .null => "null"
  | .bool b => if b then "true" else "false"
  | .num n => toString n
  | .str s => s
  | .obj _ => "[object Object]"

/-- Lodash `_.size`: number of object fields, string length, else 0. -/
def jsSize : JsVal → Nat
  | .obj fs => fs.length
  | .str s => s.length
  | _ => 0

/-- Lodash `_.toSafeInteger` on an already-integral optional input:
`undefined` coerces to 0. -/
def toSafeInteger (v : Option Int) : Int := v.getD 0

/-- JavaScript `v || d` on integers: 0 is falsy. -/
def jsOrInt (v d : Int) : Int := if v = 0 then d else v

/-- JavaScript `v || d` where `v` may be `undefined`. -/
def jsOrOpt (v : Option Int) (d : Int) : Int :=
  match v with
  | none => d
  | some x => jsOrInt x d

/-- Modelled from the spec: `util.validatePage` lives in `lib/util`, which
is not among the provided sources.  Spec §4.2: "validates `page` is a
positive integer (fails with `InvalidArgumentError` otherwise)". -/
def validatePage (page : Int) : Except DBError Unit :=
  if 1 ≤ page then .ok () else .error .invalidArgument

/-- Modelled from the spec: `util.returnOffset` lives in `lib/util`, which
is not among the provided sources.  Spec §4.2: "computes
`offset = (page - 1) * perPage`". -/
def returnOffset (page perPage : Int) : Int := (page - 1) * perPage

/-- Paginated result set, spec §3: `{ total, perPage, page, lastPage,
data }`. -/
structure PaginateResult (α : Type) where
  total : Int
  perPage : Int
  page : Int
  lastPage : Nat
  data : List α
deriving DecidableEq, Repr

/-- Modelled from the spec: `util.makePaginateMeta` lives in `lib/util`,
which is not among the provided sources.  Spec §3: paginated result with
`lastPage = ceil(total / perPage)`, minimum 1, and empty `data` (the caller
fills `data` in afterwards). -/
def makePaginateMeta (α : Type) (total : Int) (page perPage : Int) :
    PaginateResult α :=
  { total := total
    perPage := perPage
    page := page
    lastPage := max 1 ((total.toNat + perPage.toNat - 1) / perPage.toNat)
    data := [] }

/-- `Database.forPage(page, perPage)` (src/src/Database/index.js:279-284):
`util.validatePage(page); perPage = perPage || 20;
const offset = util.returnOffset(page, perPage);
return this.skip(offset).limit(perPage).find()`.
The returned query restriction is modelled by the `(skip, limit)` pair. -/
def forPage (page : Int) (perPage : Option Int) : Except DBError (Int × Int) :=
  match validatePage page with
  | .error e => .error e
  | .ok _ =>
    let pp := jsOrOpt perPage 20
    .ok (returnOffset page pp, pp)

/-- Executing a `skip(s).limit(l)` query against a backing row list. -/
def fetchPage {α : Type} (data : List α) (skip lim : Int) : List α :=
  (data.drop skip.toNat).take lim.toNat

/-- Whether `paginate`'s zero-count short circuit fires:
`!count || parseInt(count, 10) === 0` (`count` is the awaited count-query
result; `undefined`/`null` are modelled by `none`). -/
def jsCountZero : Option Int → Bool
  | none => true
  | some n => n = 0

/-- `Database.paginate(page, perPage, countByQuery)`
(src/src/Database/index.js:303-332).  The count query (a clone of the
current query with `order` statements stripped) is modelled by its awaited
result `count`; the backing rows of the data query by `data`.  Returns the
assembled result together with a flag recording whether the data-fetch
query (`this.forPage(...)`) was issued. -/
def paginate (α : Type) (page perPage : Option Int) (count : Option Int)
    (data : List α) : Except DBError (PaginateResult α × Bool) :=
  let parsedPerPage := jsOrInt (toSafeInteger perPage) 20
  let parsedPage := toSafeInteger page
  match validatePage parsedPage with
  | .error e => .error e
  | .ok _ =>
    if jsCountZero count then
      .ok (makePaginateMeta α 0 parsedPage parsedPerPage, false)
    else
      match forPage parsedPage (some parsedPerPage) with
      | .error e => .error e
      | .ok (skip, lim) =>
        let results := fetchPage data skip lim
        .ok ({ makePaginateMeta α (count.getD 0) parsedPage parsedPerPage with
               data := results }, true)

/-- `Database.chunk(limit, cb, page)` (src/src/Database/index.js:351-359):
`page = page || 1; const result = yield this.forPage(page, limit);
if (result.length) { cb(result); page++; yield this.chunk(limit, cb, page) }`.
The model returns the list of arguments passed to `cb`, in call order.  The
JS recursion has no structural decrease, so it is modelled with explicit
fuel; `chunkCalls` supplies fuel `data.length + 1`, which
`chunkGo_characterisation` proves sufficient. -/
def chunkGo {α : Type} (data : List α) (limit : Option Int) :
    Nat → Nat → Except DBError (List (List α))
  | 0, _ => .ok []
  | fuel + 1, page =>
    match forPage ((page : Nat) : Int) limit with
    | .error e => .error e
    | .ok (skip, lim) =>
      let result := fetchPage data skip lim
      if result.isEmpty then .ok []
      else
        match chunkGo data limit fuel (page + 1) with
        | .error e => .error e
        | .ok rest => .ok (result :: rest)

/-- Entry point of `Database.chunk` (`page = page || 1` starts at 1). -/
def chunkCalls {α : Type} (data : List α) (limit : Option Int) :
    Except DBError (List (List α)) :=
  chunkGo data limit (data.length + 1) 1

/-! ## Connection pool (`Database.connection`, `Database.close`,
connection-URI construction) -/

/-- Environment credentials read by `Database.connection`
(`process.env.DB_USER`, `process.env.DB_PASSWORD`); an unset variable is
`none`. -/
structure Env where
  dbUser : Option String
  dbPassword : Option String
deriving DecidableEq, Repr

/-- `config.connection.auth` (`{ source, mechanism }`). -/
structure AuthConfig where
  source : String
  mechanism : String
deriving DecidableEq, Repr

/-- The `database.<name>.connection` configuration snapshot consumed by
`Database.connection`. -/
structure ConnConfig where
  host : String
  port : Nat
  database : String
  auth : Option AuthConfig
deriving DecidableEq, Repr

/-- Config provider contents: `database.connection` (the default
connection name) and the `database.<name>` entries. -/
structure Config where
  defaultConnection : Option String
  connections : List (String × ConnConfig)
deriving DecidableEq, Repr

/-- JS truthiness of an optional environment string (`undefined` and `""`
are falsy). -/
def envTruthy : Option String → Bool
  | none => false
  | some s => s ≠ ""

/-- The `security` credential fragment (src/src/Database/index.js:145-147):
`(DB_USER && DB_PASSWORD) ? user:password@ : (DB_USER ? user@ : '')`. -/
def security (env : Env) : String :=
  if envTruthy env.dbUser && envTruthy env.dbPassword then
    env.dbUser.getD "" ++ ":" ++ env.dbPassword.getD "" ++ "@"
  else if envTruthy env.dbUser then
    env.dbUser.getD "" ++ "@"
  else ""

/-- The `authString` fragment (src/src/Database/index.js:149-151):
`(auth && auth.source && auth.mechanism)
 ? ?authSource=...&authMechanism=... : ''`. -/
def authString (c : ConnConfig) : String :=
  match c.auth with
  | some a =>
    if a.source ≠ "" && a.mechanism ≠ "" then
      "?authSource=" ++ a.source ++ "&authMechanism=" ++ a.mechanism
    else ""
  | none => ""

/-- The connection URI (src/src/Database/index.js:153):
``mongodb://${security}${host}:${port}/${database}${authString}``. -/
def connectionString (env : Env) (c : ConnConfig) : String :=
  "mongodb://" ++ security env ++ c.host ++ ":" ++ toString c.port ++ "/"
    ++ c.database ++ authString c

/-- Pool state of the `Database` module.  `pool` is the module-level
`connectionPools` object; `inflight` records `MongoClient.connect` calls
that have been issued but whose promise has not resolved yet (the code
suspends there); `nextHandle` numbers the handles `MongoClient.connect`
produces; `opens` logs, in order, the connection name of every
`MongoClient.connect` call issued; `uris` logs the connection strings those
calls were given. -/
structure PoolState where
  pool : List (String × Nat) := []
  inflight : List (String × Nat) := []
  nextHandle : Nat := 0
  opens : List String := []
  uris : List String := []
deriving DecidableEq, Repr

/-- `Database._resolveConnectionKey` (src/src/Database/index.js:114-122):
`default` is replaced by the configured `database.connection` value, which
must be truthy, else `missingConfig` is thrown. -/
def resolveConnectionKey (cfg : Config) (connection : String) :
    Except DBError String :=
  if connection = "default" then
    match cfg.defaultConnection with
    | some n => if n = "" then .error .missingConfig else .ok n
    | none => .error .missingConfig
  else .ok connection

/-- The synchronous body of the promise executor inside
`Database.connection` (src/src/Database/index.js:139-161), for an
already-resolved name: a pool hit resolves immediately with the pooled
handle (`some h`); a pool miss reads the config (throwing `missingConfig`
when absent), builds the connection URI and issues `MongoClient.connect`,
which is recorded as an inflight open — the promise resolves only later,
when `connComplete` fires. -/
def connCallResolved (env : Env) (cfg : Config) (s : PoolState)
    (name : String) : Except DBError (PoolState × Option Nat) :=
  match getKey s.pool name with
  | some h => .ok (s, some h)
  | none =>
    match getKey cfg.connections name with
    | none => .error .missingConfig
    | some c =>
      .ok ({ s with
             inflight := s.inflight ++ [(name, s.nextHandle)]
             nextHandle := s.nextHandle + 1
             opens := s.opens ++ [name]
             uris := s.uris ++ [connectionString env c] }, none)

/-- The `.then` continuation of `MongoClient.connect`
(src/src/Database/index.js:154-157): `connectionPools[connection] =
dbConnection; resolve(connectionPools[connection])`.  Fires only for an
open that is actually inflight. -/
def connComplete (s : PoolState) (name : String) (h : Nat) :
    PoolState × Option Nat :=
  if (name, h) ∈ s.inflight then
    ({ s with pool := setKey s.pool name h
              inflight := s.inflight.erase (name, h) }, some h)
  else (s, none)

/-- `Database.connection` (src/src/Database/index.js:137-162): resolve the
key, then run the promise executor. -/
def connection (env : Env) (cfg : Config) (s : PoolState) (name : String) :
    Except DBError (PoolState × Option Nat) :=
  match resolveConnectionKey cfg name with
  | .error e => .error e
  | .ok n => connCallResolved env cfg s n

/-- Events of the cooperative (single-threaded, promise-interleaved)
semantics of the pool: a `Database.connection` call for a resolved name,
or the completion of an inflight `MongoClient.connect`. -/
inductive PoolEv where
  | call (name : String)
  | complete (name : String) (h : Nat)
deriving DecidableEq, Repr

/-- One event step.  A `call` whose executor throws leaves the state
unchanged (the rejection propagates to that caller only). -/
def poolStep (env : Env) (cfg : Config) (s : PoolState) : PoolEv → PoolState
  | .call n =>
    match connCallResolved env cfg s n with
    | .error _ => s
    | .ok (s', _) => s'
  | .complete n h => (connComplete s n h).1

/-- Run a sequence of pool events. -/
def poolRun (env : Env) (cfg : Config) (s : PoolState) (evs : List PoolEv) :
    PoolState :=
  evs.foldl (poolStep env cfg) s

/-- A `Database.connection` call executed atomically: on a pool miss the
`MongoClient.connect` started by this call completes before anything else
runs (sequential scheduling). -/
def callAtomic (env : Env) (cfg : Config) (s : PoolState) (name : String) :
    PoolState × Option Nat :=
  match connCallResolved env cfg s name with
  | .error _ => (s, none)
  | .ok (s', some h) => (s', some h)
  | .ok (s', none) => connComplete s' name s.nextHandle

/-- Run a sequence of `Database.connection` calls sequentially (each call
completes before the next starts). -/
def seqRun (env : Env) (cfg : Config) (s : PoolState) (names : List String) :
    PoolState :=
  names.foldl (fun s n => (callAtomic env cfg s n).1) s

/-- `Database.close` (src/src/Database/index.js:189-201):
`connection = connection ? resolve(connection) : null;
if (connection && connectionPools[connection]) { close; delete; return }
each(connectionPools, close); connectionPools = {}`.
Returns the new state together with the handles that were closed. -/
def close (cfg : Config) (s : PoolState) (connection : Option String) :
    Except DBError (PoolState × List Nat) :=
  let resolved : Except DBError (Option String) :=
    match connection with
    | some c =>
      if c = "" then .ok none
      else
        match resolveConnectionKey cfg c with
        | .error e => .error e
        | .ok n => .ok (some n)
    | none => .ok none
  match resolved with
  | .error e => .error e
  | .ok conn =>
    match conn with
    | some n =>
      match getKey s.pool n with
      | some h => .ok ({ s with pool := removeKey s.pool n }, [h])
      | none => .ok ({ s with pool := [] }, s.pool.map Prod.snd)
    | none => .ok ({ s with pool := [] }, s.pool.map Prod.snd)

/-- Concrete environment used by witnesses: no credentials set. -/
def env0 : Env := { dbUser := none, dbPassword := none }

/-- Concrete connection config used by witnesses. -/
def cA0 : ConnConfig :=
  { host := "localhost", port := 27017, database := "test", auth := none }

/-- Concrete configuration used by witnesses: one connection `"a"`. -/
def cfg0 : Config :=
  { defaultConnection := some "a", connections := [("a", cA0)] }

/-! ## EmbedsOne relation (src/src/LucidMongo/Relations/EmbedsOne.js) -/

/-- A Lucid model instance, as far as `EmbedOne` touches it: the model
(class) name — standing in for the JS prototype used by `instanceof` —,
the `attributes` object, the `original` snapshot and the `exists` flag
(`isNew()` is its negation).  Attribute reads/writes on the instance go
through the attributes object. -/
structure MInstance where
  model : String
  attributes : JsVal
  original : JsVal
  persisted : Bool

/-- Lucid `instance.isNew()`: the instance has not been persisted. -/
def MInstance.isNew (m : MInstance) : Bool := !m.persisted

/-- Lucid `instance.set(key, value)`: writes an attribute. -/
def MInstance.set (m : MInstance) (k : String) (v : JsVal) : MInstance :=
  { m with attributes := m.attributes.setField k v }

/-- Lucid `instance.save()` on an existing instance: persists the
attributes and refreshes the `original` snapshot. -/
def MInstance.save (m : MInstance) : MInstance :=
  { m with persisted := true, original := m.attributes }

/-- Lucid `instance.toJSON()`: the serialized form of the instance, i.e.
its attributes object. -/
def MInstance.toJSON (m : MInstance) : JsVal := m.attributes

/-- The `EmbedOne` relation object (constructor,
src/src/LucidMongo/Relations/EmbedsOne.js:20-25): related model name plus
the resolved `fromKey`/`toKey`. -/
structure EmbedOneRel where
  relatedModel : String
  fromKey : String
  toKey : String

/-- `EmbedOne.save(relatedInstance)`
(src/src/LucidMongo/Relations/EmbedsOne.js:87-103).  `uuid.v4()` is
nondeterministic, so the fresh identifier is a parameter `u`.  The
`logger.warn` on a falsy parent `fromKey` has no state effect and is not
modelled.  Returns the saved parent together with the (possibly mutated)
related instance that the JS code returns. -/
def EmbedOneRel.saveRel (rel : EmbedOneRel) (parent related : MInstance)
    (u : String) : Except DBError (MInstance × MInstance) :=
  if related.model ≠ rel.relatedModel then .error .relationMisMatch
  else if parent.isNew then .error .unSavedTarget
  else
    let related' :=
      if jsFalsy (related.attributes.getField rel.fromKey) then
        { related with
          attributes := related.attributes.setField rel.fromKey (.str u) }
      else related
    let parent' := (parent.set rel.toKey related'.toJSON).save
    .ok (parent', related')

/-- Lodash `_(results).keyBy(key)`: builds a JS object mapping
`String(result[key])` to the result, iterating forward (a later result with
the same key overwrites an earlier one). -/
def keyBy (k : String) (rows : List JsVal) : List (String × JsVal) :=
  rows.foldl (fun acc r => setKey acc (jsToString (r.getField k)) r) []

/-- The body of the `.mapValues` callback inside `EmbedOne.eagerLoad`:
`new RelatedModel(); attributes = value[toKey]; exists = true;
original = cloneDeep(attributes)` (a deep copy is plain equality in this
pure embedding). -/
def mkEmbedInstance (rel : EmbedOneRel) (value : JsVal) : MInstance :=
  { model := rel.relatedModel
    attributes := value.getField rel.toKey
    original := value.getField rel.toKey
    persisted := true }

/-- `EmbedOne.eagerLoad(values, scopeMethod, results)`
(src/src/LucidMongo/Relations/EmbedsOne.js:38-51).  The `values` argument
is unused by the code and the optional `scopeMethod` callback only touches
`this.relatedQuery`, which embedded relations never query, so neither has a
state effect worth modelling. -/
def EmbedOneRel.eagerLoad (rel : EmbedOneRel) (results : List JsVal) :
    List (String × MInstance) :=
  (keyBy rel.fromKey results).map fun p => (p.1, mkEmbedInstance rel p.2)

/-! ## SchemaBuilder and `Database.schema`
(src/src/Database/index.js:404-474) -/

/-- A call issued against the external MongoDB driver. -/
inductive DriverCall where
  | connect
  | createCollection (name : String)
  | dropCollection (name : String)
  | createIndex (keys options : JsVal)
  | dropIndex (keys options : JsVal)

/-- `SchemaBuilder` state: the queued index creations (`{keys, options}`
records) and the queued drops (the *names* pushed by `dropIndex`, which are
JS strings).  The column-declaration methods (`string`, `integer`, …) are
no-ops and are not modelled. -/
structure SB where
  createIndexes : List (JsVal × JsVal) := []
  dropIndexes : List JsVal := []

/-- `SchemaBuilder.index(name, keys, options)`
(src/src/Database/index.js:450-460): `name` and a non-empty `keys` are
required; `options = options || {}; options['name'] = name;
createIndexes.push({keys, options})`. -/
def SB.index (sb : SB) (name keys options : JsVal) : Except DBError SB :=
  if jsFalsy name then .error .invalidArgument
  else if jsFalsy keys || jsSize keys == 0 then .error .invalidArgument
  else
    let options' := (jsOrVal options (.obj [])).setField "name" name
    .ok { sb with createIndexes := sb.createIndexes ++ [(keys, options')] }

/-- `SchemaBuilder.dropIndex(name)` (src/src/Database/index.js:461-463):
`dropIndexes.push(name)`. -/
def SB.dropIndex (sb : SB) (name : JsVal) : SB :=
  { sb with dropIndexes := sb.dropIndexes ++ [name] }

/-- `SchemaBuilder.build()` (src/src/Database/index.js:464-473): for each
queued creation, `collection.createIndex(createIndex.keys,
createIndex.options)`; then for each queued drop,
`collection.dropIndex(dropIndex.keys, dropIndex.options)` — note that
`dropIndex` there is the queued *name string*, so `.keys` and `.options`
are property reads on a string, i.e. `undefined`. -/
def SB.build (sb : SB) : List DriverCall :=
  (sb.createIndexes.map fun ci => .createIndex ci.1 ci.2)
    ++ sb.dropIndexes.map fun d =>
        .dropIndex (d.getField "keys") (d.getField "options")

/-- `Database.schema.createCollection`
(src/src/Database/index.js:405-411), as the trace of driver calls it
issues: connect to the default connection, `db.createCollection(name)`,
then run the callback against a fresh builder and `build()` it.  The
callback is modelled as the builder-state transformer it effects. -/
def schemaCreateCollection (name : String) (cb : SB → SB) : List DriverCall :=
  .connect :: .createCollection name :: SB.build (cb {})

/-- `Database.schema.createCollectionIfNotExists`
(src/src/Database/index.js:413-419): its body is
`yield Database.connection('default'); yield db.createCollection(name);
new SchemaBuilder; callback; build` — the same statements as
`createCollection`, with no existence check anywhere. -/
def schemaCreateCollectionIfNotExists (name : String) (cb : SB → SB) :
    List DriverCall :=
  .connect :: .createCollection name :: SB.build (cb {})

/-- `Database.schema.dropCollection` (src/src/Database/index.js:421-424):
connect, then `db.dropCollection(name)`. -/
def schemaDropCollection (name : String) : List DriverCall :=
  [.connect, .dropCollection name]

/-- `Database.schema.dropIfExists` (src/src/Database/index.js:426-429):
its body is identical to `dropCollection` — connect, then
`db.dropCollection(name)`; no existence check. -/
def schemaDropIfExists (name : String) : List DriverCall :=
  [.connect, .dropCollection name]

/-! ## Helper lemmas about association lists -/

theorem getKey_setKey {α : Type} (m : List (String × α)) (k k' : String)
    (v : α) :
    getKey (setKey m k v) k' = if k' = k then some v else getKey m k' := by
  induction m with
  | nil =>
    simp only [setKey, getKey]
    by_cases h : k' = k
    · subst h; simp
    · rw [if_neg (fun hh => h hh.symm), if_neg h]
  | cons q rest ih =>
    obtain ⟨k₀, v₀⟩ := q
    by_cases h : k₀ = k
    · subst h
      by_cases h' : k₀ = k'
      · subst h'; simp [setKey, getKey]
      · simp [setKey, getKey, h', show ¬(k' = k₀) from fun hh => h' hh.symm]
    · by_cases h' : k₀ = k' <;> by_cases h'' : k' = k <;>
        simp_all [setKey, getKey, ih]

theorem mem_setKey {α : Type} {m : List (String × α)} {k : String} {v : α}
    {p : String × α} (hp : p ∈ setKey m k v) : p = (k, v) ∨ p ∈ m := by
  induction m with
  | nil => simpa [setKey] using hp
  | cons q rest ih =>
    obtain ⟨k₀, v₀⟩ := q
    by_cases h : k₀ = k
    · subst h
      rcases List.mem_cons.mp (by simpa [setKey] using hp) with rfl | h'
      · exact Or.inl rfl
      · exact Or.inr (List.mem_cons_of_mem _ h')
    · rcases List.mem_cons.mp (by simpa [setKey, h] using hp) with rfl | h'
      · exact Or.inr (List.mem_cons_self _ _)
      · rcases ih h' with rfl | h''
        · exact Or.inl rfl
        · exact Or.inr (List.mem_cons_of_mem _ h'')

theorem keys_setKey_sub {α : Type} {m : List (String × α)} {k a : String}
    {v : α} (ha : a ∈ (setKey m k v).map Prod.fst) :
    a = k ∨ a ∈ m.map Prod.fst := by
  simp only [List.mem_map] at ha ⊢
  obtain ⟨p, hp, rfl⟩ := ha
  rcases mem_setKey hp with rfl | h
  · exact Or.inl rfl
  · exact Or.inr ⟨p, h, rfl⟩

theorem nodup_keys_setKey {α : Type} {m : List (String × α)}
    (h : (m.map Prod.fst).Nodup) (k : String) (v : α) :
    ((setKey m k v).map Prod.fst).Nodup := by
  induction m with
  | nil => simp [setKey]
  | cons q rest ih =>
    obtain ⟨k₀, v₀⟩ := q
    simp only [List.map_cons, List.nodup_cons] at h
    by_cases hk : k₀ = k
    · subst hk
      simpa [setKey, List.nodup_cons] using h
    · simp only [setKey, if_neg hk, List.map_cons, List.nodup_cons]
      refine ⟨fun hmem => ?_, ih h.2⟩
      rcases keys_setKey_sub hmem with rfl | hmem'
      · exact hk rfl
      · exact h.1 hmem'

theorem getKey_map_snd {α β : Type} (g : α → β) (m : List (String × α))
    (key : String) :
    getKey (m.map fun p => (p.1, g p.2)) key = (getKey m key).map g := by
  induction m with
  | nil => simp [getKey]
  | cons p rest ih =>
    by_cases h : p.1 = key <;> simp [getKey, h, ih]

/-! ## C1: connection-pool behaviour of `Database.connection` -/

/-- Invariant of sequential pool executions: no connect is left inflight
between calls, at most one `MongoClient.connect` was ever issued per name,
and a name absent from the pool was never opened. -/
def PoolInv (s : PoolState) : Prop :=
  s.inflight = [] ∧
    ∀ n : String, s.opens.count n ≤ 1 ∧
      (getKey s.pool n = none → s.opens.count n = 0)

theorem poolInv_init : PoolInv {} := by
  refine ⟨rfl, fun n => ?_⟩
  simp [List.count]

theorem callAtomic_inv (env : Env) (cfg : Config) {s : PoolState}
    (h : PoolInv s) (name : String) :
    PoolInv (callAtomic env cfg s name).1 := by
  obtain ⟨hinf, hcnt⟩ := h
  unfold callAtomic connCallResolved
  cases hpool : getKey s.pool name with
  | some h0 => exact ⟨hinf, hcnt⟩
  | none =>
    cases hcfg : getKey cfg.connections name with
    | none => exact ⟨hinf, hcnt⟩
    | some c =>
      dsimp only
      unfold connComplete
      rw [if_pos (by simp)]
      dsimp only
      refine ⟨by simp [hinf], fun n => ?_⟩
      have hc := hcnt n
      by_cases hn : n = name
      · subst hn
        have h0 : s.opens.count n = 0 := hc.2 hpool
        constructor
        · simp [List.count_append, List.count_cons, h0]
        · intro hnone
          rw [getKey_setKey] at hnone
          simp at hnone
      · constructor
        · simpa [List.count_append, List.count_cons,
            show ¬(n = name) from hn] using hc.1
        · intro hnone
          rw [getKey_setKey, if_neg hn] at hnone
          simpa [List.count_append, List.count_cons,
            show ¬(n = name) from hn] using hc.2 hnone

theorem seqRun_inv (env : Env) (cfg : Config) (names : List String) :
    PoolInv (seqRun env cfg {} names) := by
  suffices h : ∀ s, PoolInv s → PoolInv (seqRun env cfg s names) from
    h _ poolInv_init
  induction names with
  | nil => intro s hs; exact hs
  | cons n rest ih =>
    intro s hs
    exact ih _ (callAtomic_inv env cfg hs n)

/-- C1 (amended).  Under sequential execution — every
`Database.connection` call's `MongoClient.connect` completes before the
next call begins (`seqRun`) — the pool holds at most one handle per
connection name: at most one `MongoClient.connect` is ever issued per name
(first conjunct), and any call for a name that is already pooled returns
the pooled handle immediately, leaving the whole state unchanged, i.e.
without opening a new connection (second conjunct). -/
theorem connection_sequential_pools_once (env : Env) (cfg : Config)
    (names : List String) (name : String) :
    (seqRun env cfg {} names).opens.count name ≤ 1 ∧
    ∀ (s : PoolState) (h : Nat), getKey s.pool name = some h →
      callAtomic env cfg s name = (s, some h) := by
  constructor
  · exact ((seqRun_inv env cfg names).2 name).1
  · intro s h hk
    unfold callAtomic connCallResolved
    simp [hk]

/-- Witness for C1's amended theorem at a concrete input: two sequential
calls for `"a"` open only one handle, and a further call on the resulting
state returns the pooled handle 0 with the state unchanged. -/
theorem connection_sequential_pools_once_witness :
    (seqRun env0 cfg0 {} ["a", "a"]).opens.count "a" ≤ 1 ∧
    callAtomic env0 cfg0 (seqRun env0 cfg0 {} ["a", "a"]) "a"
      = (seqRun env0 cfg0 {} ["a", "a"], some 0) :=
  ⟨(connection_sequential_pools_once env0 cfg0 ["a", "a"] "a").1,
   (connection_sequential_pools_once env0 cfg0 ["a", "a"] "a").2 _ 0
     (by decide)⟩

/-- C1 counterexample.  Two concurrent first calls for the same name `"a"`
— the second `Database.connection("a")` runs its (synchronous) pool check
while the first call's `MongoClient.connect` is still pending, which the
code permits since nothing guards the check-then-write — issue two
`MongoClient.connect` opens for `"a"` (`opens = ["a", "a"]`), refuting the
claim that every subsequent call for the same name returns the pooled
handle without opening a new one; the pool ends up holding the second
handle while the first stays live outside the pool. -/
theorem connection_concurrent_duplicate_open :
    (poolRun env0 cfg0 {}
        [.call "a", .call "a", .complete "a" 0, .complete "a" 1]).opens
      = ["a", "a"] ∧
    (poolRun env0 cfg0 {}
        [.call "a", .call "a", .complete "a" 0, .complete "a" 1]).opens.count
        "a" = 2 ∧
    getKey (poolRun env0 cfg0 {}
        [.call "a", .call "a", .complete "a" 0, .complete "a" 1]).pool "a"
      = some 1 := by
  refine ⟨by decide, by decide, by decide⟩

/-! ## C2: `Database.close` with a name absent from the pool -/

/-- A pool state holding exactly one live connection, `"a"` with handle
7. -/
def poolS0 : PoolState :=
  { pool := [("a", 7)], nextHandle := 8, opens := ["a"] }

/-- C2 (code bug).  `Database.close("b")` against a pool that holds only
`"a"` does not behave as a no-op: because the guard
`if (connection && connectionPools[connection])` fails for an absent key,
the code falls through to the close-all branch, closing the pooled `"a"`
handle (7) and clearing the whole pool — contrary to the claim (and to the
function's own doc comment, which reserves close-all for the case where no
name is provided). -/
theorem close_absent_key_closes_all :
    close cfg0 poolS0 (some "b") = .ok ({ poolS0 with pool := [] }, [7]) ∧
    getKey poolS0.pool "b" = none ∧ poolS0.pool ≠ [] :=
  ⟨rfl, rfl, by decide⟩

/-! ## C3: zero-count short circuit of `Database.paginate` -/

/-- C3.  For a paginate call whose count query yields zero (`some 0`) or
nothing (`none`), `paginate` returns `total = 0`, the given page and
perPage, `lastPage = 1` and empty `data`, and the data-fetch query is not
issued (the `Bool` component is `false`). -/
theorem paginate_zero_count_short_circuit (α : Type) (page perPage : Int)
    (count : Option Int) (data : List α) (hp : 1 ≤ page) (hpp : 1 ≤ perPage)
    (hc : count = none ∨ count = some 0) :
    paginate α (some page) (some perPage) count data =
      .ok ({ total := 0, perPage := perPage, page := page, lastPage := 1
             data := [] }, false) := by
  have hpp0 : ¬(perPage = 0) := by omega
  have hz : jsCountZero count = true := by
    rcases hc with h | h <;> simp [h, jsCountZero]
  unfold paginate
  simp [toSafeInteger, jsOrInt, hpp0, validatePage, hp, hz, makePaginateMeta]
  have hlast : (perPage.toNat - 1) / perPage.toNat = 0 :=
    Nat.div_eq_of_lt (by omega)
  omega

/-- Witness for C3: `paginate(1, 10)` with a zero count against a
non-empty backing row list returns the empty meta-only result without
fetching. -/
theorem paginate_zero_count_short_circuit_witness :
    (1 : Int) ≤ 1 ∧ (1 : Int) ≤ 10 ∧
    paginate Nat (some 1) (some 10) (some 0) [7] =
      .ok ({ total := 0, perPage := 10, page := 1, lastPage := 1
             data := [] }, false) :=
  ⟨by decide, by decide,
   paginate_zero_count_short_circuit Nat 1 10 (some 0) [7] (by decide)
     (by decide) (Or.inr rfl)⟩

/-! ## C4: `Database.forPage` validation and skip/limit -/

/-- C4.  `forPage(page, perPage)` fails with `InvalidArgumentError` for
every non-positive page; for every positive page it restricts the query to
`skip((page - 1) * perPage).limit(perPage)`; `perPage` defaults to 20 when
omitted. -/
theorem forPage_spec (page : Int) (perPage : Option Int) :
    (1 ≤ page →
      forPage page perPage =
        .ok ((page - 1) * jsOrOpt perPage 20, jsOrOpt perPage 20)) ∧
    (page < 1 → forPage page perPage = .error .invalidArgument) ∧
    (1 ≤ page → forPage page none = .ok ((page - 1) * 20, 20)) := by
  refine ⟨fun h => ?_, fun h => ?_, fun h => ?_⟩
  · simp [forPage, validatePage, returnOffset, h]
  · simp [forPage, validatePage, show ¬(1 ≤ page) by omega]
  · simp [forPage, validatePage, returnOffset, h, jsOrOpt]

/-- Witness for C4 at the spec's own examples: `forPage(3, 10)` gives
offset 20 and limit 10, `forPage(0, 10)` and `forPage(-1, 10)` fail
validation, and an omitted perPage defaults to 20. -/
theorem forPage_spec_witness :
    forPage 0 (some 10) = .error DBError.invalidArgument ∧
    forPage (-1) (some 10) = .error DBError.invalidArgument ∧
    forPage 3 (some 10) = .ok (20, 10) ∧
    forPage 1 none = .ok (0, 20) :=
  ⟨(forPage_spec 0 (some 10)).2.1 (by decide),
   (forPage_spec (-1) (some 10)).2.1 (by decide),
   ((forPage_spec 3 (some 10)).1 (by decide)).trans rfl,
   ((forPage_spec 1 none).2.2 (by decide)).trans rfl⟩

/-! ## C8: connection-URI construction on a pool miss -/

/-- C8.  The URI built on a pool miss is
`mongodb://[credentials]host:port/database[query]`: credentials are
`user:password@` when both are set (and truthy), `user@` when only a user
is set, empty otherwise; the query part is
`?authSource=…&authMechanism=…` when both auth parameters are configured
and empty when no auth is configured; and
`connCallResolved` on a pool miss records exactly this URI for the
`MongoClient.connect` call it issues. -/
theorem connectionString_format (env : Env) (cfg : Config) (c : ConnConfig) :
    (∀ u p, env.dbUser = some u → env.dbPassword = some p → u ≠ "" →
      p ≠ "" →
      connectionString env c =
        "mongodb://" ++ (u ++ ":" ++ p ++ "@") ++ c.host ++ ":"
          ++ toString c.port ++ "/" ++ c.database ++ authString c) ∧
    (∀ u, env.dbUser = some u → u ≠ "" → envTruthy env.dbPassword = false →
      connectionString env c =
        "mongodb://" ++ (u ++ "@") ++ c.host ++ ":" ++ toString c.port
          ++ "/" ++ c.database ++ authString c) ∧
    (envTruthy env.dbUser = false →
      connectionString env c =
        "mongodb://" ++ c.host ++ ":" ++ toString c.port ++ "/"
          ++ c.database ++ authString c) ∧
    (∀ a, c.auth = some a → a.source ≠ "" → a.mechanism ≠ "" →
      authString c =
        "?authSource=" ++ a.source ++ "&authMechanism=" ++ a.mechanism) ∧
    (c.auth = none → authString c = "") ∧
    (∀ (s : PoolState) (n : String) (conf : ConnConfig),
      getKey s.pool n = none → getKey cfg.connections n = some conf →
      ∃ s', connCallResolved env cfg s n = .ok (s', none) ∧
        s'.uris = s.uris ++ [connectionString env conf]) := by
  refine ⟨fun u p hu hp hu' hp' => ?_, fun u hu hu' hp => ?_, fun hu => ?_,
    fun a ha hs hm => ?_, fun ha => ?_, fun s n conf h1 h2 => ?_⟩
  · simp [connectionString, security, envTruthy, hu, hp, hu', hp']
  · have h1 : envTruthy (some u) = true := by simp [envTruthy, hu']
    simp [connectionString, security, h1, hp, hu]
  · simp [connectionString, security, hu]
  · simp [authString, ha, hs, hm]
  · simp [authString, ha]
  · unfold connCallResolved
    rw [h1, h2]
    exact ⟨_, rfl, rfl⟩

/-- Witness for C8: with `DB_USER=bob`, `DB_PASSWORD=pw` and a config with
both auth parameters, the URI has the full documented shape; and a
pool-miss call for `"a"` against `cfg0` records the URI of `cA0`. -/
theorem connectionString_format_witness :
    connectionString { dbUser := some "bob", dbPassword := some "pw" }
        { host := "localhost", port := 27017, database := "test"
          auth := some { source := "admin", mechanism := "SCRAM-SHA-1" } } =
      "mongodb://bob:pw@localhost:27017/test?authSource=admin&authMechanism=SCRAM-SHA-1" ∧
    ∃ s', connCallResolved env0 cfg0 {} "a" = .ok (s', none) ∧
      s'.uris = ({} : PoolState).uris ++ [connectionString env0 cA0] :=
  ⟨((connectionString_format
      { dbUser := some "bob", dbPassword := some "pw" } cfg0
      { host := "localhost", port := 27017, database := "test"
        auth := some { source := "admin", mechanism := "SCRAM-SHA-1" } }).1
      "bob" "pw" rfl rfl (by decide) (by decide)).trans rfl,
   (connectionString_format env0 cfg0 cA0).2.2.2.2.2 {} "a" cA0 rfl rfl⟩

/-! ## C9: `SchemaBuilder.build` ordering and the drop-argument slip -/

/-- The builder state after `index('a_idx', {f: 1})` and
`index('b_idx', {g: -1})`. -/
def sbC : SB :=
  { createIndexes :=
      [(.obj [("f", .num 1)], .obj [("name", .str "a_idx")]),
       (.obj [("g", .num (-1))], .obj [("name", .str "b_idx")])]
    dropIndexes := [] }

/-- C9 (code bug).  `build()` does iterate the queued creations in
declaration order and then the queued drops in declaration order, but the
drop loop reads `dropIndex.keys` and `dropIndex.options` off the queued
*name string*, so every drop is issued as
`collection.dropIndex(undefined, undefined)` — the queued names
(`"idx1"`, `"idx2"`) never reach the driver and the named indexes are not
dropped.  (First conjunct: `index` queues `{keys, options}` with the name
injected into `options`, as the claim's create half expects.) -/
theorem schemaBuilder_build_drop_args_undefined :
    SB.index {} (.str "a_idx") (.obj [("f", .num 1)]) .undefined =
      .ok { createIndexes := [(.obj [("f", .num 1)],
                              .obj [("name", .str "a_idx")])]
            dropIndexes := [] } ∧
    SB.build (SB.dropIndex (SB.dropIndex sbC (.str "idx1")) (.str "idx2")) =
      [.createIndex (.obj [("f", .num 1)]) (.obj [("name", .str "a_idx")]),
       .createIndex (.obj [("g", .num (-1))]) (.obj [("name", .str "b_idx")]),
       .dropIndex .undefined .undefined,
       .dropIndex .undefined .undefined] :=
  ⟨rfl, rfl⟩

/-! ## C10: `createCollectionIfNotExists` / `dropIfExists` are aliases -/

/-- C10.  `schema.createCollectionIfNotExists` issues exactly the driver
calls of `schema.createCollection` for every name and callback, and
`schema.dropIfExists` those of `schema.dropCollection`; neither performs
any existence check — `dropIfExists` delegates straight to the driver's
`dropCollection` after connecting. -/
theorem schema_ifNotExists_equals_create (name : String) (cb : SB → SB) :
    schemaCreateCollectionIfNotExists name cb =
      schemaCreateCollection name cb ∧
    schemaDropIfExists name = schemaDropCollection name ∧
    schemaDropIfExists name = [.connect, .dropCollection name] :=
  ⟨rfl, rfl, rfl⟩

/-! ## C6: `EmbedOne.save` -/

theorem getField_setField_self (fs : List (String × JsVal)) (k : String)
    (v : JsVal) : ((JsVal.obj fs).setField k v).getField k = v := by
  simp [JsVal.setField, JsVal.getField, getKey_setKey]

/-- C6.  `EmbedOne.save(relatedInstance)` fails with
`RelationMismatchError` for an instance of the wrong model, fails with
`UnsavedTargetError` when the parent is not persisted, and on a persisted
parent: when the related instance's `fromKey` is empty it is auto-assigned
the fresh UUID, the related instance's serialized form is written into the
parent's `toKey` field, the parent is persisted, and the (mutated) related
instance is returned. -/
theorem embedsOne_save_spec (rel : EmbedOneRel) (parent related : MInstance)
    (u : String) :
    (related.model ≠ rel.relatedModel →
      rel.saveRel parent related u = .error .relationMisMatch) ∧
    (related.model = rel.relatedModel → parent.persisted = false →
      rel.saveRel parent related u = .error .unSavedTarget) ∧
    (related.model = rel.relatedModel → parent.persisted = true →
      jsFalsy (related.attributes.getField rel.fromKey) = true →
      (∃ fs, related.attributes = .obj fs) →
      (∃ gs, parent.attributes = .obj gs) →
      ∃ parent' related',
        rel.saveRel parent related u = .ok (parent', related') ∧
        related'.attributes.getField rel.fromKey = .str u ∧
        parent'.attributes.getField rel.toKey = related'.attributes ∧
        parent'.persisted = true) := by
  refine ⟨fun h1 => ?_, fun h1 h2 => ?_, fun h1 h2 h3 hfs hgs => ?_⟩
  · simp [EmbedOneRel.saveRel, h1]
  · simp [EmbedOneRel.saveRel, MInstance.isNew, h1, h2]
  · obtain ⟨fs, hfs⟩ := hfs
    obtain ⟨gs, hgs⟩ := hgs
    refine ⟨(parent.set rel.toKey
        (related.attributes.setField rel.fromKey (.str u))).save,
      { related with
        attributes := related.attributes.setField rel.fromKey (.str u) },
      ?_, ?_, ?_, rfl⟩
    · simp [EmbedOneRel.saveRel, MInstance.isNew, MInstance.toJSON, h1, h2,
        h3]
    · simp [hfs, getField_setField_self]
    · simp only [MInstance.set, MInstance.save]
      rw [hgs, getField_setField_self]

/-- Concrete relation, parent and related instances for the C6 witness. -/
def relC : EmbedOneRel :=
  { relatedModel := "Profile", fromKey := "_id", toKey := "profile" }

def parentC : MInstance :=
  { model := "User", attributes := .obj [("_id", .str "u1")]
    original := .obj [("_id", .str "u1")], persisted := true }

def relatedC : MInstance :=
  { model := "Profile", attributes := .obj [("bio", .str "hi")]
    original := .obj [], persisted := false }

def relatedBad : MInstance := { relatedC with model := "Avatar" }

def parentNew : MInstance := { parentC with persisted := false }

/-- Witness for C6: the wrong-model and unsaved-parent failures, and the
successful save path with UUID auto-assignment, at concrete instances. -/
theorem embedsOne_save_spec_witness :
    relC.saveRel parentC relatedBad "uuid-1" =
      .error DBError.relationMisMatch ∧
    relC.saveRel parentNew relatedC "uuid-1" =
      .error DBError.unSavedTarget ∧
    ∃ parent' related',
      relC.saveRel parentC relatedC "uuid-1" = .ok (parent', related') ∧
      related'.attributes.getField relC.fromKey = .str "uuid-1" ∧
      parent'.attributes.getField relC.toKey = related'.attributes ∧
      parent'.persisted = true :=
  ⟨(embedsOne_save_spec relC parentC relatedBad "uuid-1").1 (by decide),
   (embedsOne_save_spec relC parentNew relatedC "uuid-1").2.1 rfl rfl,
   (embedsOne_save_spec relC parentC relatedC "uuid-1").2.2 rfl rfl rfl
     ⟨_, rfl⟩ ⟨_, rfl⟩⟩

/-! ## C7: `EmbedOne.eagerLoad` -/

theorem keyBy_go_nodup (k : String) (rows : List JsVal) :
    ∀ acc : List (String × JsVal), (acc.map Prod.fst).Nodup →
      ((rows.foldl
          (fun acc r => setKey acc (jsToString (r.getField k)) r) acc).map
        Prod.fst).Nodup := by
  induction rows with
  | nil => intro acc h; simpa using h
  | cons r rest ih => intro acc h; exact ih _ (nodup_keys_setKey h _ _)

theorem keyBy_go_mem (k : String) (rows : List JsVal) :
    ∀ acc p,
      p ∈ rows.foldl
          (fun acc r => setKey acc (jsToString (r.getField k)) r) acc →
      p ∈ acc ∨ ∃ r ∈ rows, p = (jsToString (r.getField k), r) := by
  induction rows with
  | nil => intro acc p hp; exact Or.inl (by simpa using hp)
  | cons r rest ih =>
    intro acc p hp
    rcases ih _ p hp with h | ⟨r', hr', rfl⟩
    · rcases mem_setKey h with rfl | h'
      · exact Or.inr ⟨r, by simp, rfl⟩
      · exact Or.inl h'
    · exact Or.inr ⟨r', by simp [hr'], rfl⟩

theorem getKey_foldl_isSome (k : String) (rows : List JsVal) :
    ∀ (acc : List (String × JsVal)) (key : String),
      (getKey acc key).isSome →
      (getKey (rows.foldl
          (fun acc r => setKey acc (jsToString (r.getField k)) r) acc)
        key).isSome := by
  induction rows with
  | nil => intro acc key h; simpa using h
  | cons r rest ih =>
    intro acc key h
    apply ih
    rw [getKey_setKey]
    split
    · simp
    · exact h

theorem keyBy_go_covers (k : String) (rows : List JsVal) :
    ∀ (acc : List (String × JsVal)) (r : JsVal), r ∈ rows →
      (getKey (rows.foldl
          (fun acc r => setKey acc (jsToString (r.getField k)) r) acc)
        (jsToString (r.getField k))).isSome := by
  induction rows with
  | nil => intro acc r hr; simp at hr
  | cons r₀ rest ih =>
    intro acc r hr
    rcases List.mem_cons.mp hr with rfl | hr'
    · rw [List.foldl_cons]
      apply getKey_foldl_isSome
      rw [getKey_setKey]
      simp
    · rw [List.foldl_cons]
      exact ih _ r hr'

/-- C7.  `EmbedOne.eagerLoad` returns a mapping with no duplicate keys
(one related instance per key); every entry comes from a result row, is
keyed by that row's `fromKey` value, and carries an instance whose
`attributes` is the row's embedded `toKey` field, whose `exists` flag is
true and whose `original` equals its `attributes` (the deep copy); and
every result row's `fromKey` value is present as a key of the mapping. -/
theorem embedsOne_eagerLoad_spec (rel : EmbedOneRel) (results : List JsVal) :
    ((rel.eagerLoad results).map Prod.fst).Nodup ∧
    (∀ p ∈ rel.eagerLoad results, ∃ r ∈ results,
      p.1 = jsToString (r.getField rel.fromKey) ∧
      p.2.attributes = r.getField rel.toKey ∧
      p.2.persisted = true ∧
      p.2.original = p.2.attributes ∧
      p.2.model = rel.relatedModel) ∧
    (∀ r ∈ results, ∃ inst,
      getKey (rel.eagerLoad results)
        (jsToString (r.getField rel.fromKey)) = some inst) := by
  refine ⟨?_, fun p hp => ?_, fun r hr => ?_⟩
  · have h := keyBy_go_nodup rel.fromKey results [] (by simp)
    unfold EmbedOneRel.eagerLoad
    simpa [List.map_map, Function.comp, keyBy] using h
  · unfold EmbedOneRel.eagerLoad at hp
    rw [List.mem_map] at hp
    obtain ⟨q, hq, rfl⟩ := hp
    rcases keyBy_go_mem rel.fromKey results [] q hq with h | ⟨r, hr, rfl⟩
    · simp at h
    · exact ⟨r, hr, rfl, rfl, rfl, rfl, rfl⟩
  · unfold EmbedOneRel.eagerLoad
    rw [getKey_map_snd (mkEmbedInstance rel)]
    have h := keyBy_go_covers rel.fromKey results [] r hr
    obtain ⟨inst, hinst⟩ := Option.isSome_iff_exists.mp h
    unfold keyBy
    exact ⟨_, by rw [hinst]; rfl⟩

/-- Parent result rows for the C7 witness. -/
def docs7 : List JsVal :=
  [.obj [("_id", .str "u1"), ("profile", .obj [("city", .str "x")])],
   .obj [("_id", .str "u2"), ("profile", .obj [("city", .str "y")])]]

/-- Witness for C7: the mapping built from `docs7` contains an entry for
the first row's `fromKey` value `"u1"`. -/
theorem embedsOne_eagerLoad_spec_witness :
    ∃ inst, getKey (relC.eagerLoad docs7) "u1" = some inst :=
  (embedsOne_eagerLoad_spec relC docs7).2.2
    (.obj [("_id", .str "u1"), ("profile", .obj [("city", .str "x")])])
    (by simp [docs7])

/-! ## C5: `Database.chunk` -/

theorem natCast_mul_toNat (a : Nat) (L : Int) (hL : 0 ≤ L) :
    (((a : Nat) : Int) * L).toNat = a * L.toNat := by
  obtain ⟨m, hm⟩ := Int.eq_ofNat_of_zero_le hL
  subst hm
  rw [← Nat.cast_mul, Int.toNat_natCast, Int.toNat_natCast]

theorem forPage_pos_eval (p : Nat) (L : Int) (hL : 1 ≤ L) :
    forPage ((p + 1 : Nat) : Int) (some L) = .ok (((p : Nat) : Int) * L, L) := by
  have h1 : (1 : Int) ≤ ((p + 1 : Nat) : Int) := by omega
  have hL0 : ¬(L = 0) := by omega
  simp [forPage, validatePage, h1, jsOrOpt, jsOrInt, hL0, returnOffset]

theorem chunkGo_step {α : Type} (data : List α) (L : Int) (hL : 1 ≤ L)
    (f p : Nat) :
    chunkGo data (some L) (f + 1) (p + 1) =
      (if ((data.drop (p * L.toNat)).take L.toNat).isEmpty then .ok []
       else
         match chunkGo data (some L) f (p + 2) with
         | .error e => .error e
         | .ok rest =>
           .ok ((data.drop (p * L.toNat)).take L.toNat :: rest)) := by
  simp only [chunkGo, forPage_pos_eval p L hL, fetchPage,
    natCast_mul_toNat p L (by omega)]

theorem chunkGo_characterisation {α : Type} (L : Int) (hL : 1 ≤ L) :
    ∀ (f p : Nat) (data : List α),
      (data.drop (p * L.toNat)).length ≤ f * L.toNat →
      ∃ calls, chunkGo data (some L) (f + 1) (p + 1) = .ok calls ∧
        (∀ i (hi : i < calls.length),
          calls[i] = (data.drop ((p + i) * L.toNat)).take L.toNat ∧
          calls[i] ≠ []) ∧
        (data.drop ((p + calls.length) * L.toNat)).take L.toNat = [] := by
  intro f
  induction f with
  | zero =>
    intro p data hlen
    have h0 : (data.drop (p * L.toNat)).length = 0 := by simpa using hlen
    have hnil : data.drop (p * L.toNat) = [] :=
      List.eq_nil_of_length_eq_zero h0
    have hempty : (data.drop (p * L.toNat)).take L.toNat = [] := by
      rw [hnil]; simp
    refine ⟨[], ?_, by simp, by simpa using hempty⟩
    rw [chunkGo_step data L hL 0 p]
    simp [hempty]
  | succ f ih =>
    intro p data hlen
    by_cases hres : (data.drop (p * L.toNat)).take L.toNat = []
    · refine ⟨[], ?_, by simp, by simpa using hres⟩
      rw [chunkGo_step data L hL (f + 1) p]
      simp [hres]
    · have hK : 1 ≤ L.toNat := by omega
      have hlen' : (data.drop ((p + 1) * L.toNat)).length ≤ f * L.toNat := by
        have h := hlen
        rw [List.length_drop] at h
        rw [List.length_drop]
        have h2 : (p + 1) * L.toNat = p * L.toNat + L.toNat := by ring
        have h1 : (f + 1) * L.toNat = f * L.toNat + L.toNat := by ring
        rw [h2]
        rw [h1] at h
        generalize p * L.toNat = A at h ⊢
        generalize f * L.toNat = B at h ⊢
        omega
      obtain ⟨calls', hEq, hIdx, hLast⟩ := ih (p + 1) data hlen'
      refine ⟨(data.drop (p * L.toNat)).take L.toNat :: calls', ?_, ?_, ?_⟩
      · rw [chunkGo_step data L hL (f + 1) p]
        have : ¬((data.drop (p * L.toNat)).take L.toNat).isEmpty = true := by
          simpa [List.isEmpty_iff] using hres
        rw [if_neg this]
        have hEq' : chunkGo data (some L) (f + 1) (p + 2) = .ok calls' := by
          simpa [show p + 2 = (p + 1) + 1 from rfl] using hEq
        rw [hEq']
      · intro i hi
        cases i with
        | zero =>
          exact ⟨by simp, by simpa using hres⟩
        | succ j =>
          have hj : j < calls'.length := by simpa using hi
          have h := hIdx j hj
          refine ⟨?_, by simpa using h.2⟩
          rw [show p + (j + 1) = (p + 1) + j from by omega]
          simpa using h.1
      · simp only [List.length_cons]
        rw [show p + (calls'.length + 1) = (p + 1) + calls'.length from
          by omega]
        simpa using hLast

/-- C5.  `chunk(L, cb)` fetches pages sequentially starting at page 1,
invokes `cb` exactly once per non-empty fetched page with that page's
results (page `i + 1` holding `skip(i * L).limit(L)` of the backing data),
and stops exactly when a fetched page is empty: every delivered page is
non-empty, and the page after the last delivered one is empty. -/
theorem chunk_pages_spec {α : Type} (data : List α) (L : Int) (hL : 1 ≤ L) :
    ∃ calls, chunkCalls data (some L) = .ok calls ∧
      (∀ i (hi : i < calls.length),
        calls[i] = fetchPage data (((i : Nat) : Int) * L) L ∧
        calls[i] ≠ []) ∧
      fetchPage data (((calls.length : Nat) : Int) * L) L = [] := by
  have hbound : ((data.drop (0 * L.toNat)).length : Nat) ≤
      data.length * L.toNat := by
    simp only [Nat.zero_mul, List.drop_zero]
    calc data.length = data.length * 1 := by ring
    _ ≤ data.length * L.toNat := Nat.mul_le_mul_left data.length (by omega)
  obtain ⟨calls, hEq, hIdx, hLast⟩ :=
    chunkGo_characterisation L hL data.length 0 data hbound
  refine ⟨calls, ?_, ?_, ?_⟩
  · simpa [chunkCalls] using hEq
  · intro i hi
    have h := hIdx i hi
    refine ⟨?_, h.2⟩
    simp only [fetchPage]
    rw [natCast_mul_toNat i L (by omega)]
    simpa using h.1
  · simp only [fetchPage]
    rw [natCast_mul_toNat calls.length L (by omega)]
    simpa using hLast

set_option maxRecDepth 100000 in
/-- Witness for C5 at the spec's example: 250 backing rows with limit 100
give exactly three `cb` invocations of sizes 100, 100 and 50 and no
fourth. -/
theorem chunk_pages_spec_witness :
    (1 : Int) ≤ 100 ∧
    (∃ calls, chunkCalls (List.range 250) (some 100) = .ok calls ∧
      (∀ i (hi : i < calls.length),
        calls[i] = fetchPage (List.range 250) (((i : Nat) : Int) * 100) 100 ∧
        calls[i] ≠ []) ∧
      fetchPage (List.range 250) (((calls.length : Nat) : Int) * 100) 100
        = []) ∧
    Except.map (fun calls => calls.map List.length)
        (chunkCalls (List.range 250) (some 100)) = .ok [100, 100, 50] :=
  ⟨by decide, chunk_pages_spec (List.range 250) 100 (by decide), by rfl⟩

